import Mathlib

/-!
# Verification of the scritical/.github helper scripts

Shallow embedding of the three utilities in this repository:

* `src/combine-config.py` — merge two INI-style configuration files with
  override semantics (via Python `configparser`);
* `src/labels/filter-repos.py` — filter a GraphQL JSON dump of organization
  repositories into a plain list;
* `src/.github/scripts/dockerhub_oat_manager.py` — rotate a Docker Hub
  organization access token (create + revoke).

Pure functions are translated directly; the side effects of the scripts (HTTP
requests, environment-file appends, stdout/stderr lines) are made explicit
as returned traces.
-/

namespace Spec2Proof

/-! ## Config merger: data model (src/combine-config.py, Python configparser)

A parsed INI document, as held by a `configparser.ConfigParser` after
`read`: an ordered list of sections, each an ordered list of key/value
entries (Python dicts preserve insertion order).  The implicit `DEFAULT`
section is not modelled (none of the inputs here use it). -/

/-- One INI section: its name and ordered key/value entries. -/
structure IniSection where
  name : String
  entries : List (String × String)
deriving DecidableEq, Repr

/-- Model of Python `str.lower` on a character, restricted to ASCII
(the default `optionxform` of `configparser` is `str.lower`; all inputs in this
repository are ASCII). -/
def charLower (c : Char) : Char :=
  if 65 ≤ c.toNat ∧ c.toNat ≤ 90 then Char.ofNat (c.toNat + 32) else c

/-- Model of Python `str.lower` (ASCII fragment): `configparser.optionxform`. -/
def pyLower (s : String) : String := ⟨s.data.map charLower⟩

/-- `ConfigParser.has_section`. -/
def hasSection (doc : List IniSection) (sec : String) : Bool :=
  doc.any (fun s => s.name == sec)

/-- `ConfigParser.add_section`: a new empty section is appended at the end. -/
def addSection (doc : List IniSection) (sec : String) : List IniSection :=
  doc ++ [⟨sec, []⟩]

/-- Python dict update on the option dict of a section: replace the value of the
first entry with key `k` in place, or append `(k, v)` at the end. -/
def setKey : List (String × String) → String → String → List (String × String)
  | [], k, v => [(k, v)]
  | (k', v') :: rest, k, v =>
    if k' == k then (k, v) :: rest else (k', v') :: setKey rest k v

/-- `ConfigParser.set doc sec k v`: the key is normalized through
`optionxform` (lowercasing) and stored into every section named `sec`
(a parser holds at most one). -/
def configSet (doc : List IniSection) (sec k v : String) : List IniSection :=
  doc.map (fun s =>
    if s.name == sec then ⟨s.name, setKey s.entries (pyLower k) v⟩ else s)

/-- The body of the override loop in `merge_configs` for one repo-config
section: create the section if absent, then set every key/value from the
repo document into it. -/
def mergeSection (config : List IniSection) (s : IniSection) : List IniSection :=
  let c := if hasSection config s.name then config else addSection config s.name
  s.entries.foldl (fun acc kv => configSet acc s.name kv.1 kv.2) c

/-- `merge_configs` on parsed documents: fold every section of the repo
(override) document into the default document. -/
def merge_configs (defaultDoc repoDoc : List IniSection) : List IniSection :=
  repoDoc.foldl mergeSection defaultDoc

/-- `merge_configs` with the optional override file: `none` models a repo
path for which `Path(repo_path).exists()` is false, in which case the merge
step is skipped entirely. -/
def merge_configs_opt (defaultDoc : List IniSection)
    (repoDoc : Option (List IniSection)) : List IniSection :=
  match repoDoc with
  | none => defaultDoc
  | some o => merge_configs defaultDoc o

/-- Value of key `k` in a list of entries: first entry with that key
(Python dict access; parsed documents never hold duplicate keys). -/
def lookupEntries : List (String × String) → String → Option String
  | [], _ => none
  | (k₀, v) :: rest, k => if k₀ == k then some v else lookupEntries rest k

/-- Look up section `sec`, key `k` in a document: first section with that
name, first entry with that key. -/
def lookupKey : List IniSection → String → String → Option String
  | [], _, _ => none
  | s :: rest, sec, k =>
    if s.name == sec then lookupEntries s.entries k else lookupKey rest sec k

/-- Value of the last entry with key `k` (later entries win, as under
repeated dict assignment). -/
def lookupLast : List (String × String) → String → Option String
  | [], _ => none
  | (k₀, v) :: rest, k =>
    match lookupLast rest k with
    | some w => some w
    | none => if k₀ == k then some v else none

/-- The section names of a document, in order. -/
def sectionNames (doc : List IniSection) : List String :=
  doc.map (fun s => s.name)

/-- Well-formedness every configparser-parsed document enjoys: section
names are pairwise distinct, and within each section the keys are pairwise
distinct and already lowercased (configparser raises on duplicates and
lowercases keys on read). -/
def ParsedWF (doc : List IniSection) : Prop :=
  (sectionNames doc).Nodup ∧
    ∀ s ∈ doc, (s.entries.map (fun kv => kv.1)).Nodup ∧
      ∀ kv ∈ s.entries, pyLower kv.1 = kv.1

/-- Every key of every section of the document is a fixed point of
lowercasing. -/
def KeysLowercased (doc : List IniSection) : Prop :=
  ∀ s ∈ doc, ∀ kv ∈ s.entries, pyLower kv.1 = kv.1

/-! ### INI reading and writing (Python configparser `read` / `write`)

`parseINI` models `ConfigParser.read` for the line forms that the inputs in
this repository use: `[section]` headers and `key=value` lines, blank lines
skipped,
keys stripped and lowercased, values stripped.  Not modelled (unused by any
input here): comments, line continuations, the `:` delimiter, and the
errors configparser raises on duplicate sections/options or on entries
before the first header (such lines are skipped here).

`writeINI` models `ConfigParser.write` with its default
`space_around_delimiters=True`: each section as `[name]`, one
`key = value` line per entry, and a blank line after every section. -/

/-- Split a character list at newlines (Python line iteration). -/
def splitLines : List Char → List (List Char)
  | [] => [[]]
  | c :: rest =>
    if c == '\n' then [] :: splitLines rest
    else
      match splitLines rest with
      | [] => [[c]]
      | l :: ls => (c :: l) :: ls

/-- Model of Python `str.strip` on a character list (ASCII whitespace). -/
def stripChars (cs : List Char) : List Char :=
  ((cs.dropWhile Char.isWhitespace).reverse.dropWhile Char.isWhitespace).reverse

/-- Characters of a section header up to the closing `]`, if any
(the configparser `SECTCRE` pattern, which requires a nonempty header). -/
def takeHeader : List Char → Option (List Char)
  | [] => none
  | c :: rest =>
    if c == ']' then some []
    else (takeHeader rest).map (fun h => c :: h)

/-- Recognize a `[section]` header line. -/
def sectionHeader (cs : List Char) : Option String :=
  match cs with
  | '[' :: rest =>
    match takeHeader rest with
    | some h => if h.isEmpty then none else some ⟨h⟩
    | none => none
  | _ => none

/-- Split a line at its first `=` (the configparser option pattern with the `=`
delimiter). -/
def splitAtEq : List Char → Option (List Char × List Char)
  | [] => none
  | c :: rest =>
    if c == '=' then some ([], rest)
    else (splitAtEq rest).map (fun p => (c :: p.1, p.2))

/-- Add an entry to the section currently being read (the last one). -/
def appendToLast : List IniSection → String → String → List IniSection
  | [], _, _ => []
  | [s], k, v => [⟨s.name, s.entries ++ [(k, v)]⟩]
  | s :: s2 :: rest, k, v => s :: appendToLast (s2 :: rest) k v

/-- Process the stripped lines of an INI file in order. -/
def parseLinesAux : List (List Char) → List IniSection → List IniSection
  | [], doc => doc
  | line :: rest, doc =>
    let v := stripChars line
    if v.isEmpty then parseLinesAux rest doc
    else
      match sectionHeader v with
      | some nm => parseLinesAux rest (doc ++ [⟨nm, []⟩])
      | none =>
        match splitAtEq v with
        | some (k, w) =>
          parseLinesAux rest (appendToLast doc (pyLower ⟨stripChars k⟩) ⟨stripChars w⟩)
        | none => parseLinesAux rest doc

/-- `ConfigParser.read` on the text of a whole file (fragment described above). -/
def parseINI (s : String) : List IniSection :=
  parseLinesAux (splitLines s.data) []

/-- One written entry line: `key = value` (`space_around_delimiters=True`). -/
def writeEntry (kv : String × String) : String := kv.1 ++ " = " ++ kv.2 ++ "\n"

/-- One written section: header, entry lines, then a blank line. -/
def writeSection (s : IniSection) : String :=
  "[" ++ s.name ++ "]\n" ++ String.join (s.entries.map writeEntry) ++ "\n"

/-- `ConfigParser.write`: every section in order. -/
def writeINI (doc : List IniSection) : String :=
  String.join (doc.map writeSection)

/-! ## Repository list filter (src/labels/filter-repos.py)

The script reads `data["data"]["organization"]["repositories"]["nodes"]`; each
node is modelled by the three fields the script accesses.  The nested
`repositoryTopics.nodes[i]["topic"]["name"]` chain is flattened into a plain
list of topic names, exactly what the list comprehension in the script extracts. -/

/-- One repository node of the GraphQL dump, restricted to the accessed
fields. -/
structure RepoNode where
  isArchived : Bool
  nameWithOwner : String
  topics : List String
deriving DecidableEq, Repr

/-- The body of the filter loop for one node: append the full name of the
node when the node is not archived, none of its topics is `"paper"`, and
the name is not already in the list. -/
def filterStep (repos : List String) (d : RepoNode) : List String :=
  if !d.isArchived && !(d.topics.contains "paper") && !(repos.contains d.nameWithOwner)
  then repos ++ [d.nameWithOwner]
  else repos

/-- The filter loop of `filter-repos.py`, starting from the hardcoded list
`["scritical/.github"]`. -/
def filterRepos (nodes : List RepoNode) : List String :=
  nodes.foldl filterStep ["scritical/.github"]

/-- The text written to the output file: names joined by newlines plus a
trailing newline. -/
def filterReposOutput (nodes : List RepoNode) : String :=
  String.intercalate "\n" (filterRepos nodes) ++ "\n"

/-! ## Token rotator (src/.github/scripts/dockerhub_oat_manager.py)

The effects of the script are made explicit: each function returns a trace of the
HTTP requests it attempted (by URL, in order), the values handed to
`mask_value` (which prints an `::add-mask::` line for each nonempty one), the
lines appended to the `GITHUB_ENV` file, and the stdout lines, together with
an `Except String` result (`.error` models a raised `RuntimeError`).  HTTP
responses are supplied as oracles: an `Except HTTPErr β` per request, where
`.error` models `urllib` raising `HTTPError` (a non-2xx status). -/

/-- A non-2xx HTTP response: status code and reason phrase
(`HTTPError.code` / `HTTPError.reason`). -/
structure HTTPErr where
  code : Nat
  reason : String
deriving DecidableEq, Repr

/-- The single error message both `request_json` and `request_no_body` raise
on an `HTTPError`. -/
def apiErrorMessage (e : HTTPErr) : String :=
  "Docker Hub API request failed: " ++ toString e.code ++ " " ++ e.reason

/-- `request_json`/`request_no_body`: translate the HTTP outcome, turning a
non-2xx response into the single `RuntimeError` kind. -/
def requestResult {β : Type} (r : Except HTTPErr β) : Except String β :=
  match r with
  | .ok b => .ok b
  | .error e => .error (apiErrorMessage e)

/-- One line appended to the `GITHUB_ENV` file by `write_github_env`. -/
def write_github_env (key value : String) : String := key ++ "=" ++ value ++ "\n"

/-- The auth response body, restricted to the accessed field;
`none` models an absent `access_token` key. -/
structure AuthResponse where
  access_token : Option String
deriving DecidableEq, Repr

/-- The token-creation response body, restricted to the accessed fields;
`none` models an absent key. -/
structure OatResponse where
  token : Option String
  id : Option String
deriving DecidableEq, Repr

/-- Python truthiness test `not x` for an optional string: true when the
key is absent (`None`) or the value is the empty string. -/
def optFalsy (s : Option String) : Bool :=
  match s with
  | none => true
  | some v => v == ""

/-- The auth endpoint URL. -/
def authUrl : String := "https://hub.docker.com/v2/auth/token"

/-- The org access-token creation endpoint URL. -/
def oatUrl (org : String) : String :=
  "https://hub.docker.com/v2/orgs/" ++ org ++ "/access-tokens"

/-- The token listing URL (`page_size=100`, single page). -/
def listUrl (org : String) : String :=
  "https://hub.docker.com/v2/orgs/" ++ org ++ "/access-tokens?page_size=100"

/-- The deletion URL for one token id. -/
def deleteUrl (org tokenId : String) : String :=
  "https://hub.docker.com/v2/orgs/" ++ org ++ "/access-tokens/" ++ tokenId

/-- The observable effects of one `create_oat` run. -/
structure CreateTrace where
  requests : List String
  masks : List String
  envLines : List String
deriving DecidableEq, Repr

/-- `create_oat`, with the environment values already read (`require_env` on
`DOCKERHUB_USERNAME`, `DOCKERHUB_PASSWORD`, `DOCKERHUB_ORG`, `GITHUB_RUN_ID`
guarantees they are nonempty) and with the two HTTP responses supplied as
oracles.  Mirrors the source order: mask username and password, POST to the
auth endpoint, check `access_token`, mask it, export `DOCKERHUB_BEARER`,
POST the OAT payload, check `token` and `id`, mask the token, export
`NEW_OAT_ID` then `NEW_OAT`. -/
def create_oat (username password org _runId : String)
    (authR : Except HTTPErr AuthResponse) (oatR : Except HTTPErr OatResponse) :
    CreateTrace × Except String Unit :=
  match requestResult authR with
  | .error m => (⟨[authUrl], [username, password], []⟩, .error m)
  | .ok auth =>
    if optFalsy auth.access_token then
      (⟨[authUrl], [username, password], []⟩,
       .error "Docker Hub auth response missing access_token")
    else
      let accessToken := auth.access_token.getD ""
      let bearerLine := write_github_env "DOCKERHUB_BEARER" accessToken
      match requestResult oatR with
      | .error m =>
        (⟨[authUrl, oatUrl org], [username, password, accessToken], [bearerLine]⟩, .error m)
      | .ok oat =>
        if optFalsy oat.token || optFalsy oat.id then
          (⟨[authUrl, oatUrl org], [username, password, accessToken], [bearerLine]⟩,
           .error "Docker Hub OAT response missing token or id")
        else
          let newOat := oat.token.getD ""
          let newOatId := oat.id.getD ""
          (⟨[authUrl, oatUrl org],
            [username, password, accessToken, newOat],
            [bearerLine,
             write_github_env "NEW_OAT_ID" newOatId,
             write_github_env "NEW_OAT" newOat]⟩,
           .ok ())

/-- One entry of the `results` array of the token listing, restricted to the
accessed fields: `label` models `item.get("label", "")` (absent key gives
`""`) and `id` models `item.get("id")` (absent key gives `None`). -/
structure TokenItem where
  label : String
  id : Option String
deriving DecidableEq, Repr

/-- `startsWith` on character lists (Python `str.startswith`). -/
def listStartsWith : List Char → List Char → Bool
  | _, [] => true
  | [], _ :: _ => false
  | c :: cs, d :: ds => c == d && listStartsWith cs ds

/-- Python `label.startswith("gh-actions-rotate-")`. -/
def labelIsRotate (label : String) : Bool :=
  listStartsWith label.data "gh-actions-rotate-".data

/-- The `old_ids` list comprehension of `revoke_oats`: the ids of every
listed token whose label starts with `"gh-actions-rotate-"` and whose id
differs from the preserved id (`None` and `""` both differ from a real id). -/
def selectedOldIds (keepId : String) (results : List TokenItem) : List (Option String) :=
  (results.filter (fun item => labelIsRotate item.label && item.id != some keepId)).map
    (fun item => item.id)

/-- The deletion loop of `revoke_oats` over `old_ids`: skip falsy ids
(`None`/`""`), otherwise DELETE.  Returns the ids for which a DELETE was
attempted, in order, and the result; a failed DELETE raises, aborting the
loop, so no later id is attempted. -/
def deleteLoop (deleteR : String → Except HTTPErr Unit) :
    List (Option String) → List String × Except String Unit
  | [] => ([], .ok ())
  | none :: rest => deleteLoop deleteR rest
  | some s :: rest =>
    if s == "" then deleteLoop deleteR rest
    else
      match requestResult (deleteR s) with
      | .ok _ => let r := deleteLoop deleteR rest; (s :: r.1, r.2)
      | .error m => ([s], .error m)

/-- The observable effects of one `revoke_oats` run. -/
structure RevokeTrace where
  requests : List String
  deletes : List String
  printed : List String
deriving DecidableEq, Repr

/-- `revoke_oats`, with the environment values already read (`require_env`
on `DOCKERHUB_ORG`, `DOCKERHUB_BEARER`, `NEW_OAT_ID`) and the HTTP
responses supplied as oracles: `listR` answers the GET of the token listing
(already projected to `response.get("results", [])`), `deleteR` answers the
DELETE for a given token id.  Mirrors the source: list, select `old_ids`,
early-return with a message when none, else delete each non-falsy id and
print the count of `old_ids`. -/
def revoke_oats (org _bearer keepId : String)
    (listR : Except HTTPErr (List TokenItem))
    (deleteR : String → Except HTTPErr Unit) :
    RevokeTrace × Except String Unit :=
  match requestResult listR with
  | .error m => (⟨[listUrl org], [], []⟩, .error m)
  | .ok results =>
    let oldIds := selectedOldIds keepId results
    if oldIds.isEmpty then
      (⟨[listUrl org], [], ["No previous tokens to revoke."]⟩, .ok ())
    else
      let r := deleteLoop deleteR oldIds
      match r.2 with
      | .ok _ =>
        (⟨listUrl org :: r.1.map (deleteUrl org), r.1,
          ["Revoked " ++ toString oldIds.length ++ " previous token(s)."]⟩, .ok ())
      | .error m =>
        (⟨listUrl org :: r.1.map (deleteUrl org), r.1, []⟩, .error m)

/-- The `if __name__ == "__main__"` wrapper: `sys.exit(main())` on success,
and on an exception the message goes to stderr and the exit code is 1. -/
structure ProcessOutcome where
  exitCode : Nat
  stderrLine : Option String
deriving DecidableEq, Repr

/-- Translate the result of a run into the process outcome. -/
def runProcess (r : Except String Nat) : ProcessOutcome :=
  match r with
  | .ok code => ⟨code, none⟩
  | .error msg => ⟨1, some msg⟩

/-- `main` restricted to one requested action: returns exit code 0 when the
action succeeds and propagates the raised error otherwise. -/
def mainResult (act : Except String Unit) : Except String Nat :=
  match act with
  | .ok _ => .ok 0
  | .error m => .error m

/-! ## Helper lemmas: repository list filter -/

/-- The fold of `filterRepos` keeps the hardcoded entry first and unique. -/
theorem filterFold_head_count (nodes : List RepoNode) (acc : List String)
    (h1 : acc.head? = some "scritical/.github")
    (h2 : acc.count "scritical/.github" = 1) :
    (nodes.foldl filterStep acc).head? = some "scritical/.github" ∧
      (nodes.foldl filterStep acc).count "scritical/.github" = 1 := by
  induction nodes generalizing acc with
  | nil => exact ⟨h1, h2⟩
  | cons d rest ih =>
    rw [List.foldl_cons]
    apply ih
    · unfold filterStep
      split
      · simp [h1]
      · exact h1
    · unfold filterStep
      split
      · rename_i hcond
        have hnotmem : d.nameWithOwner ∉ acc := by
          simp only [Bool.and_eq_true, Bool.not_eq_true'] at hcond
          simpa using hcond.2
        have hne : "scritical/.github" ≠ d.nameWithOwner := by
          intro h
          exact hnotmem (h ▸ List.count_pos_iff.mp (by rw [h2]; exact Nat.one_pos))
        rw [List.count_append, h2]
        simp [List.count_singleton', hne]
      · exact h2

/-- Every element the fold of `filterRepos` adds beyond its starting
accumulator is the name of some node that passed the filter. -/
theorem filterFold_mem (nodes : List RepoNode) (acc : List String) (x : String)
    (hx : x ∈ nodes.foldl filterStep acc) :
    x ∈ acc ∨ ∃ d ∈ nodes,
      d.isArchived = false ∧ "paper" ∉ d.topics ∧ d.nameWithOwner = x := by
  induction nodes generalizing acc with
  | nil => exact Or.inl hx
  | cons d rest ih =>
    rw [List.foldl_cons] at hx
    rcases ih (filterStep acc d) hx with h | ⟨d', hd', hprop⟩
    · unfold filterStep at h
      split at h
      · rename_i hcond
        simp only [Bool.and_eq_true, Bool.not_eq_true'] at hcond
        rcases List.mem_append.mp h with h' | h'
        · exact Or.inl h'
        · refine Or.inr ⟨d, List.mem_cons_self d rest, hcond.1.1, ?_, ?_⟩
          · simpa using hcond.1.2
          · exact (List.mem_singleton.mp h').symm
      · exact Or.inl h
    · exact Or.inr ⟨d', List.mem_cons_of_mem d hd', hprop⟩

/-! ## Claim theorems: repository list filter -/

/-- C4: for every input, the output list of the repository filter has the
hardcoded entry `"scritical/.github"` as its first element, and that entry
occurs exactly once, regardless of the input nodes. -/
theorem filterRepos_hardcoded_first (nodes : List RepoNode) :
    (filterRepos nodes).head? = some "scritical/.github" ∧
      (filterRepos nodes).count "scritical/.github" = 1 :=
  filterFold_head_count nodes ["scritical/.github"] rfl (by decide)

/-- C5, counterexample to the claim as stated: when the input contains the
repository `scritical/.github` itself as an archived node, that archived
node is in the input, yet its name still appears in the output (it is the
hardcoded entry). -/
theorem filterRepos_archived_appears :
    (⟨true, "scritical/.github", []⟩ : RepoNode).isArchived = true ∧
      (⟨true, "scritical/.github", []⟩ : RepoNode) ∈
        ([⟨true, "scritical/.github", []⟩] : List RepoNode) ∧
      "scritical/.github" ∈ filterRepos [⟨true, "scritical/.github", []⟩] := by
  decide

/-- C5 (amended): every name in the output of the repository filter other
than the hardcoded entry `"scritical/.github"` is the name of some input
node that is not archived and has no topic named `"paper"`; in particular
no archived or `"paper"`-tagged repository other than the hardcoded entry
ever appears in the output. -/
theorem filterRepos_no_archived_no_paper (nodes : List RepoNode) (x : String)
    (hx : x ∈ filterRepos nodes) (hne : x ≠ "scritical/.github") :
    ∃ d ∈ nodes, d.isArchived = false ∧ "paper" ∉ d.topics ∧ d.nameWithOwner = x := by
  rcases filterFold_mem nodes ["scritical/.github"] x hx with h | h
  · exact absurd (List.mem_singleton.mp h) hne
  · exact h

/-- Witness for C5 (amended) at a concrete input. -/
theorem filterRepos_no_archived_no_paper_witness :
    ∃ d ∈ ([⟨false, "scritical/lib", []⟩] : List RepoNode),
      d.isArchived = false ∧ "paper" ∉ d.topics ∧ d.nameWithOwner = "scritical/lib" :=
  filterRepos_no_archived_no_paper [⟨false, "scritical/lib", []⟩] "scritical/lib"
    (by decide) (by decide)

/-! ## Helper lemmas: config merger lookups -/

/-- `setKey` updates the looked-up value at `k` and preserves other keys. -/
theorem lookupEntries_setKey (es : List (String × String)) (k v k' : String) :
    lookupEntries (setKey es k v) k' =
      if k' = k then some v else lookupEntries es k' := by
  induction es with
  | nil =>
    by_cases hk : k' = k
    · simp [setKey, lookupEntries, hk]
    · simp [setKey, lookupEntries, hk, Ne.symm hk]
  | cons hd tl ih =>
    obtain ⟨k₀, v₀⟩ := hd
    by_cases h₀ : k₀ = k
    · subst h₀
      by_cases hk : k' = k₀
      · simp [setKey, lookupEntries, hk]
      · simp [setKey, lookupEntries, hk, Ne.symm hk]
    · by_cases hk : k' = k₀
      · subst hk
        simp [setKey, lookupEntries, h₀, Ne.symm h₀]
      · simp [setKey, lookupEntries, h₀, Ne.symm hk, ih]

/-- `configSet` keeps every section name in place. -/
theorem configSet_head_name (s : IniSection) (sec k v : String) :
    (if s.name == sec then
      (⟨s.name, setKey s.entries (pyLower k) v⟩ : IniSection) else s).name = s.name := by
  split <;> rfl

/-- `configSet` does not change which sections exist. -/
theorem hasSection_configSet (doc : List IniSection) (sec k v sec' : String) :
    hasSection (configSet doc sec k v) sec' = hasSection doc sec' := by
  induction doc with
  | nil => rfl
  | cons s rest ih =>
    simp only [configSet, List.map_cons, hasSection, List.any_cons] at ih ⊢
    rw [configSet_head_name, ih]

/-- Effect of `configSet` on lookups: when the target section exists, the
looked-up value at the lowercased key becomes `v`; every other lookup is
unchanged. -/
theorem lookupKey_configSet (doc : List IniSection) (sec k v sec' k' : String) :
    lookupKey (configSet doc sec k v) sec' k' =
      if sec' = sec ∧ k' = pyLower k ∧ hasSection doc sec = true then some v
      else lookupKey doc sec' k' := by
  induction doc with
  | nil => simp [configSet, lookupKey, hasSection]
  | cons s rest ih =>
    simp only [configSet, List.map_cons] at ih ⊢
    by_cases hname : s.name = sec
    · have hhs : hasSection (s :: rest) sec = true := by simp [hasSection, hname]
      by_cases hsec' : sec' = sec
      · subst hsec'
        simp [lookupKey, hname, lookupEntries_setKey, hhs]
      · have hns' : ¬sec = sec' := fun h => hsec' h.symm
        simp only [beq_iff_eq] at ih
        simp [lookupKey, hname, hns', hsec', ih]
    · have hhs : hasSection (s :: rest) sec = hasSection rest sec := by
        simp [hasSection, hname]
      by_cases hsec' : s.name = sec'
      · have hne : ¬sec' = sec := fun h => hname (hsec'.trans h)
        simp [lookupKey, hname, hsec', hne]
      · simp only [beq_iff_eq] at ih
        simp [lookupKey, hname, hsec', ih, hhs]

/-- Adding a (necessarily fresh, hence empty) section changes no lookup. -/
theorem lookupKey_addSection (doc : List IniSection) (nm sec k : String) :
    lookupKey (addSection doc nm) sec k = lookupKey doc sec k := by
  induction doc with
  | nil =>
    by_cases h : nm = sec <;> simp [addSection, lookupKey, lookupEntries, h]
  | cons s rest ih =>
    simp only [addSection, List.cons_append] at ih ⊢
    by_cases h : s.name = sec <;> simp [lookupKey, h, ih]

/-- The freshly added section exists afterwards. -/
theorem hasSection_addSection_self (doc : List IniSection) (nm : String) :
    hasSection (addSection doc nm) nm = true := by
  simp [hasSection, addSection]

/-- Effect of the inner entry loop of `mergeSection` on lookups, for a
section known to exist and entries whose keys are already lowercase: inside
the target section the last entry with the key wins, falling back to the
accumulator; other sections are untouched. -/
theorem lookupKey_foldl_configSet (entries : List (String × String))
    (c : List IniSection) (sec sec' k' : String)
    (hfix : ∀ kv ∈ entries, pyLower kv.1 = kv.1)
    (hsec : hasSection c sec = true) :
    lookupKey (entries.foldl (fun acc kv => configSet acc sec kv.1 kv.2) c) sec' k' =
      if sec' = sec then
        (match lookupLast entries k' with
         | some w => some w
         | none => lookupKey c sec' k')
      else lookupKey c sec' k' := by
  induction entries generalizing c with
  | nil => by_cases h : sec' = sec <;> simp [h, lookupLast]
  | cons kv rest ih =>
    rw [List.foldl_cons]
    rw [ih (configSet c sec kv.1 kv.2)
      (fun x hx => hfix x (List.mem_cons_of_mem kv hx))
      (by rw [hasSection_configSet]; exact hsec)]
    have hkfix : pyLower kv.1 = kv.1 := hfix kv (List.mem_cons_self kv rest)
    by_cases hs : sec' = sec
    · subst hs
      match hll : lookupLast rest k' with
      | some w => simp [lookupLast, hll]
      | none =>
        simp only [lookupLast, hll, if_pos rfl]
        rw [lookupKey_configSet, hkfix]
        by_cases hk : k' = kv.1
        · simp [hk, hsec]
        · have hk' : ¬kv.1 = k' := fun h => hk h.symm
          simp [hk, hk']
    · simp [hs, lookupKey_configSet]

/-- Effect of one `mergeSection` step on lookups. -/
theorem lookupKey_mergeSection (c : List IniSection) (s : IniSection)
    (sec' k' : String) (hfix : ∀ kv ∈ s.entries, pyLower kv.1 = kv.1) :
    lookupKey (mergeSection c s) sec' k' =
      if sec' = s.name then
        (match lookupLast s.entries k' with
         | some w => some w
         | none => lookupKey c sec' k')
      else lookupKey c sec' k' := by
  unfold mergeSection
  by_cases h : hasSection c s.name
  · rw [if_pos h, lookupKey_foldl_configSet s.entries c s.name sec' k' hfix h]
  · rw [if_neg h, lookupKey_foldl_configSet s.entries (addSection c s.name) s.name sec' k'
      hfix (hasSection_addSection_self c s.name)]
    by_cases hs : sec' = s.name
    · subst hs
      match lookupLast s.entries k' with
      | some w => simp
      | none => simp [lookupKey_addSection]
    · simp [hs, lookupKey_addSection]

/-- A key outside the entry keys has no last value. -/
theorem lookupLast_eq_none (es : List (String × String)) (k : String)
    (h : ∀ kv ∈ es, kv.1 ≠ k) : lookupLast es k = none := by
  induction es with
  | nil => rfl
  | cons kv rest ih =>
    obtain ⟨k₀, v₀⟩ := kv
    have hk₀ : k₀ ≠ k := h (k₀, v₀) (List.mem_cons_self _ _)
    simp [lookupLast, ih (fun x hx => h x (List.mem_cons_of_mem _ hx)), hk₀]

/-- With distinct keys, last-wins lookup and first-wins lookup agree. -/
theorem lookupLast_eq_lookupEntries (es : List (String × String)) (k : String)
    (hnd : (es.map (fun kv => kv.1)).Nodup) :
    lookupLast es k = lookupEntries es k := by
  induction es with
  | nil => rfl
  | cons kv rest ih =>
    obtain ⟨k₀, v₀⟩ := kv
    rw [List.map_cons, List.nodup_cons] at hnd
    by_cases hk : k₀ = k
    · subst hk
      have : lookupLast rest k₀ = none := by
        apply lookupLast_eq_none
        intro x hx hx1
        exact hnd.1 (hx1 ▸ List.mem_map_of_mem (fun kv => kv.1) hx)
      simp [lookupLast, lookupEntries, this]
    · simp [lookupLast, lookupEntries, hk, ih hnd.2]
      cases hE : lookupEntries rest k <;> rfl

/-- No section with the name means every lookup in it is `none`. -/
theorem lookupKey_eq_none_of_not_hasSection (doc : List IniSection)
    (sec k : String) (h : hasSection doc sec = false) :
    lookupKey doc sec k = none := by
  induction doc with
  | nil => rfl
  | cons s rest ih =>
    simp only [hasSection, List.any_cons, Bool.or_eq_false_iff] at h
    have hs : s.name ≠ sec := by simpa using h.1
    simpa [lookupKey, hs] using ih (by simpa [hasSection] using h.2)

/-- The single merged-lookup equation: for a well-formed override document,
looking up any section/key in the merged document gives the override value
when the override defines it and the default value otherwise. -/
theorem lookupKey_merge_configs (d o : List IniSection) (ho : ParsedWF o)
    (sec k : String) :
    lookupKey (merge_configs d o) sec k =
      (lookupKey o sec k).or (lookupKey d sec k) := by
  obtain ⟨hnames, hsecs⟩ := ho
  induction o generalizing d with
  | nil => simp [merge_configs, lookupKey]
  | cons s rest ih =>
    simp only [sectionNames, List.map_cons, List.nodup_cons] at hnames
    have hmc : merge_configs d (s :: rest) = merge_configs (mergeSection d s) rest := rfl
    rw [hmc, ih (mergeSection d s) hnames.2
      (fun x hx => hsecs x (List.mem_cons_of_mem s hx))]
    have hsfix : ∀ kv ∈ s.entries, pyLower kv.1 = kv.1 :=
      (hsecs s (List.mem_cons_self s rest)).2
    have hsnd : (s.entries.map (fun kv => kv.1)).Nodup :=
      (hsecs s (List.mem_cons_self s rest)).1
    by_cases hs : s.name = sec
    · subst hs
      have hrest : lookupKey rest s.name k = none := by
        apply lookupKey_eq_none_of_not_hasSection
        by_contra hcon
        rw [Bool.not_eq_false] at hcon
        simp only [hasSection, List.any_eq_true, beq_iff_eq] at hcon
        obtain ⟨x, hx, hxn⟩ := hcon
        exact hnames.1 (hxn ▸ List.mem_map_of_mem (fun t => t.name) hx)
      rw [hrest, lookupKey_mergeSection d s _ _ hsfix, if_pos rfl,
        lookupLast_eq_lookupEntries s.entries k hsnd]
      simp only [lookupKey, beq_self_eq_true, if_pos rfl]
      match lookupEntries s.entries k with
      | some w => rfl
      | none => simp
    · have hlk : lookupKey (s :: rest) sec k = lookupKey rest sec k := by
        simp [lookupKey, hs]
      rw [hlk, lookupKey_mergeSection d s _ _ hsfix, if_neg (fun h => hs h.symm)]

/-! ## Claim theorems: config merger -/

/-- C3: for parsed default and override documents (the override well-formed
as every parsed document is), every section/key pair defined by the
override appears in the merged output with the override value — never the
default value — and every pair defined only in the default keeps the
default value, so every pair present in either input appears. -/
theorem merge_configs_override_wins (d o : List IniSection) (ho : ParsedWF o)
    (sec k : String) :
    (∀ v, lookupKey o sec k = some v →
      lookupKey (merge_configs d o) sec k = some v) ∧
    (lookupKey o sec k = none →
      lookupKey (merge_configs d o) sec k = lookupKey d sec k) := by
  constructor
  · intro v hv
    rw [lookupKey_merge_configs d o ho sec k, hv]
    rfl
  · intro hnone
    rw [lookupKey_merge_configs d o ho sec k, hnone]
    rfl

/-- Witness for C3 at concrete documents: the overridden key takes the
override value, the default-only key keeps the default value. -/
theorem merge_configs_override_wins_witness :
    lookupKey (merge_configs [⟨"a", [("x", "1"), ("y", "0")]⟩]
        [⟨"a", [("y", "2")]⟩]) "a" "y" = some "2" ∧
      lookupKey (merge_configs [⟨"a", [("x", "1"), ("y", "0")]⟩]
        [⟨"a", [("y", "2")]⟩]) "a" "x" = lookupKey [⟨"a", [("x", "1"), ("y", "0")]⟩] "a" "x" :=
  ⟨(merge_configs_override_wins [⟨"a", [("x", "1"), ("y", "0")]⟩]
      [⟨"a", [("y", "2")]⟩] (by unfold ParsedWF sectionNames; decide) "a" "y").1 "2" (by decide),
   (merge_configs_override_wins [⟨"a", [("x", "1"), ("y", "0")]⟩]
      [⟨"a", [("y", "2")]⟩] (by unfold ParsedWF sectionNames; decide) "a" "x").2 (by decide)⟩

/-- C7: when the override file does not exist the merge is the identity on
the parsed default document, so the written output is the serialization of
exactly the sections, keys and values of the default file. -/
theorem merge_configs_absent_override_identity (d : List IniSection) :
    merge_configs_opt d none = d ∧
      writeINI (merge_configs_opt d none) = writeINI d :=
  ⟨rfl, rfl⟩

/-- C8, counterexample to the claim as stated: merging `[a]\nx=1` with
`[a]\ny=2\n[b]\nz=3` does not produce the text `[a]\nx=1\ny=2\n\n[b]\nz=3`
(configparser writes spaces around `=` and a blank line after every
section, including the last). -/
theorem merge_example_text_ne :
    writeINI (merge_configs (parseINI "[a]\nx=1") (parseINI "[a]\ny=2\n[b]\nz=3")) ≠
      "[a]\nx=1\ny=2\n\n[b]\nz=3" := by
  decide

/-- C8 (amended): merging default `[a]\nx=1` with override
`[a]\ny=2\n[b]\nz=3` produces exactly the output text
`[a]\nx = 1\ny = 2\n\n[b]\nz = 3\n\n` — the claimed section/key/value
structure and order, but with spaces around `=` and a blank line closing
each section. -/
theorem merge_example_text :
    writeINI (merge_configs (parseINI "[a]\nx=1") (parseINI "[a]\ny=2\n[b]\nz=3")) =
      "[a]\nx = 1\ny = 2\n\n[b]\nz = 3\n\n" := by
  decide

/-! ## Helper lemmas: key lowercasing (configparser optionxform) -/

/-- Lowercasing a character is idempotent. -/
theorem charLower_charLower (c : Char) : charLower (charLower c) = charLower c := by
  by_cases h : 65 ≤ c.toNat ∧ c.toNat ≤ 90
  · obtain ⟨h1, h2⟩ := h
    have hc : charLower c = Char.ofNat (c.toNat + 32) := by
      unfold charLower
      rw [if_pos ⟨h1, h2⟩]
    rw [hc]
    generalize c.toNat = n at h1 h2 ⊢
    interval_cases n <;> decide
  · have hc : charLower c = c := by
      unfold charLower
      rw [if_neg h]
    rw [hc, hc]

/-- Lowercasing a string is idempotent. -/
theorem pyLower_pyLower (s : String) : pyLower (pyLower s) = pyLower s := by
  unfold pyLower
  apply congrArg String.mk
  rw [List.map_map]
  exact List.map_congr_left (fun c _ => charLower_charLower c)

/-- `setKey` with an already-lowercase key keeps every key lowercase. -/
theorem keysFixed_setKey (es : List (String × String)) (k v : String)
    (hes : ∀ kv ∈ es, pyLower kv.1 = kv.1) (hk : pyLower k = k) :
    ∀ kv ∈ setKey es k v, pyLower kv.1 = kv.1 := by
  induction es with
  | nil =>
    intro kv hkv
    rw [setKey] at hkv
    rcases List.mem_singleton.mp hkv with h
    rw [h]
    exact hk
  | cons hd tl ih =>
    obtain ⟨k₀, v₀⟩ := hd
    intro kv hkv
    rw [setKey] at hkv
    split at hkv
    · rcases List.mem_cons.mp hkv with h | h
      · rw [h]
        exact hk
      · exact hes kv (List.mem_cons_of_mem _ h)
    · rcases List.mem_cons.mp hkv with h | h
      · rw [h]
        exact hes (k₀, v₀) (List.mem_cons_self _ _)
      · exact ih (fun x hx => hes x (List.mem_cons_of_mem _ hx)) kv h

/-- `configSet` keeps every key of the document lowercase. -/
theorem keysLowercased_configSet (doc : List IniSection) (sec k v : String)
    (h : KeysLowercased doc) : KeysLowercased (configSet doc sec k v) := by
  intro s hs
  rcases List.mem_map.mp hs with ⟨s₀, hs₀, hmap⟩
  subst hmap
  split
  · exact keysFixed_setKey s₀.entries (pyLower k) v (h s₀ hs₀) (pyLower_pyLower k)
  · exact h s₀ hs₀

/-- `addSection` keeps every key of the document lowercase. -/
theorem keysLowercased_addSection (doc : List IniSection) (nm : String)
    (h : KeysLowercased doc) : KeysLowercased (addSection doc nm) := by
  intro s hs
  rcases List.mem_append.mp hs with h' | h'
  · exact h s h'
  · intro kv hkv
    rw [List.mem_singleton.mp h'] at hkv
    simp at hkv

/-- One `mergeSection` step keeps every key of the document lowercase. -/
theorem keysLowercased_mergeSection (c : List IniSection) (s : IniSection)
    (h : KeysLowercased c) : KeysLowercased (mergeSection c s) := by
  unfold mergeSection
  have hstart : KeysLowercased
      (if hasSection c s.name then c else addSection c s.name) := by
    split
    · exact h
    · exact keysLowercased_addSection c s.name h
  generalize (if hasSection c s.name then c else addSection c s.name) = c₀ at hstart
  induction s.entries generalizing c₀ with
  | nil => exact hstart
  | cons kv rest ih =>
    rw [List.foldl_cons]
    exact ih (configSet c₀ s.name kv.1 kv.2)
      (keysLowercased_configSet c₀ s.name kv.1 kv.2 hstart)

/-- `merge_configs` keeps every key of the default document lowercase,
whatever the override holds (set-time `optionxform` lowercases its keys). -/
theorem keysLowercased_merge_configs (d o : List IniSection)
    (h : KeysLowercased d) : KeysLowercased (merge_configs d o) := by
  induction o generalizing d with
  | nil => exact h
  | cons s rest ih =>
    exact ih (mergeSection d s) (keysLowercased_mergeSection d s h)

/-- `appendToLast` with a lowercase key keeps every key lowercase. -/
theorem keysLowercased_appendToLast (doc : List IniSection) (k v : String)
    (h : KeysLowercased doc) (hk : pyLower k = k) :
    KeysLowercased (appendToLast doc k v) := by
  induction doc with
  | nil => exact h
  | cons s rest ih =>
    match rest with
    | [] =>
      intro t ht kv hkv
      rw [List.mem_singleton.mp ht] at hkv
      rcases List.mem_append.mp hkv with h' | h'
      · exact h s (List.mem_singleton.mpr rfl) kv h'
      · rw [List.mem_singleton.mp h']
        exact hk
    | s₂ :: rest₂ =>
      intro t ht kv hkv
      rcases List.mem_cons.mp ht with h' | h'
      · exact h t (h' ▸ List.mem_cons_self s _) kv hkv
      · exact ih (fun x hx => h x (List.mem_cons_of_mem s hx)) t h' kv hkv

/-- The parsing loop only ever inserts lowercased keys. -/
theorem keysLowercased_parseLinesAux (lines : List (List Char))
    (doc : List IniSection) (h : KeysLowercased doc) :
    KeysLowercased (parseLinesAux lines doc) := by
  induction lines generalizing doc with
  | nil => exact h
  | cons line rest ih =>
    rw [parseLinesAux]
    split
    · exact ih doc h
    · split
      · apply ih
        intro s hs kv hkv
        rcases List.mem_append.mp hs with h' | h'
        · exact h s h' kv hkv
        · rw [List.mem_singleton.mp h'] at hkv
          simp at hkv
      · split
        · apply ih
          exact keysLowercased_appendToLast doc _ _ h (pyLower_pyLower _)
        · exact ih doc h

/-- Every key of a parsed document is lowercase. -/
theorem keysLowercased_parseINI (text : String) :
    KeysLowercased (parseINI text) := by
  unfold parseINI
  apply keysLowercased_parseLinesAux
  intro s hs
  simp at hs

/-! ## Claim theorem: key case-insensitivity (C10) -/

/-- C10: the config merger treats key names case-insensitively and
normalizes them to lowercase — (i) every key of a parsed input document is
lowercase, (ii) merging keeps every key of the output lowercase whatever
the override holds, and (iii) a default key and an override key differing
only in letter case are the same key: after the merge the single lowercase
key holds the override value, never the default value. -/
theorem config_keys_case_insensitive :
    (∀ text : String, KeysLowercased (parseINI text)) ∧
    (∀ d o : List IniSection, KeysLowercased d → KeysLowercased (merge_configs d o)) ∧
    (∀ sec kd ko v1 v2 : String, pyLower kd = pyLower ko →
      lookupKey (merge_configs [⟨sec, [(pyLower kd, v1)]⟩] [⟨sec, [(ko, v2)]⟩])
        sec (pyLower kd) = some v2) := by
  refine ⟨keysLowercased_parseINI, keysLowercased_merge_configs, ?_⟩
  intro sec kd ko v1 v2 h
  have hone : merge_configs [⟨sec, [(pyLower kd, v1)]⟩] [⟨sec, [(ko, v2)]⟩] =
      mergeSection [⟨sec, [(pyLower kd, v1)]⟩] ⟨sec, [(ko, v2)]⟩ := rfl
  rw [hone]
  unfold mergeSection
  have hhs : hasSection [(⟨sec, [(pyLower kd, v1)]⟩ : IniSection)] sec = true := by
    simp [hasSection]
  rw [if_pos hhs]
  simp only [List.foldl_cons, List.foldl_nil]
  rw [lookupKey_configSet]
  simp [hhs, h]
  intro hcon
  simp [hasSection] at hcon

/-- Witness for C10 at concrete inputs: the parsed document of `[a]\nX=1`
has lowercase keys, and overriding key `KEY` replaces the value stored
under the parsed key `Key`. -/
theorem config_keys_case_insensitive_witness :
    KeysLowercased (merge_configs (parseINI "[a]\nX=1") [⟨"a", [("Y", "2")]⟩]) ∧
      lookupKey (merge_configs [⟨"a", [(pyLower "Key", "1")]⟩] [⟨"a", [("KEY", "2")]⟩])
        "a" (pyLower "Key") = some "2" :=
  ⟨config_keys_case_insensitive.2.1 (parseINI "[a]\nX=1") [⟨"a", [("Y", "2")]⟩]
      (config_keys_case_insensitive.1 "[a]\nX=1"),
   config_keys_case_insensitive.2.2 "a" "Key" "KEY" "1" "2" (by decide)⟩

/-! ## Helper lemmas: token rotator -/

/-- With every DELETE succeeding, the deletion loop attempts exactly the
selected ids that are neither `None` nor empty, in order, and succeeds. -/
theorem deleteLoop_ok (ids : List (Option String)) :
    deleteLoop (fun _ => .ok ()) ids =
      (ids.filterMap (fun oid => oid.bind (fun s => if s == "" then none else some s)),
       .ok ()) := by
  induction ids with
  | nil => rfl
  | cons oid rest ih =>
    match oid with
    | none => simpa [deleteLoop] using ih
    | some s =>
      by_cases h : s = ""
      · simpa [deleteLoop, h] using ih
      · simp [deleteLoop, h, requestResult, ih]

/-- With every DELETE failing, the deletion loop attempts only the first
valid id (the exception aborts the loop) and returns the translated error. -/
theorem deleteLoop_error (e : HTTPErr) (ids : List (Option String)) :
    deleteLoop (fun _ => .error e) ids =
      match ids.filterMap (fun oid => oid.bind (fun s => if s == "" then none else some s)) with
      | [] => ([], .ok ())
      | s :: _ => ([s], .error (apiErrorMessage e)) := by
  induction ids with
  | nil => rfl
  | cons oid rest ih =>
    match oid with
    | none => simpa [deleteLoop] using ih
    | some s =>
      by_cases h : s = ""
      · simpa [deleteLoop, h] using ih
      · simp [deleteLoop, h, requestResult]

/-! ## Claim theorems: token rotator -/

/-- C1, counterexample to the claim as stated: one listed token has the
rotation label and an id (the empty string) that differs from the preserved
id `"k"`, so one token is selected — but no DELETE call is issued, because
the falsy id is skipped. -/
theorem revoke_oats_skipped_id :
    (selectedOldIds "k" [⟨"gh-actions-rotate-1", some ""⟩]).length = 1 ∧
      (revoke_oats "org" "bear" "k"
        (.ok [⟨"gh-actions-rotate-1", some ""⟩]) (fun _ => .ok ())).1.deletes.length = 0 := by
  decide

/-- C1 (amended): with every DELETE succeeding, `revoke_oats` issues
exactly one DELETE per selected token id that is neither null nor empty
(in listing order), and no DELETE call ever targets the preserved id. -/
theorem revoke_oats_delete_calls (org bearer keepId : String) (results : List TokenItem) :
    (revoke_oats org bearer keepId (.ok results) (fun _ => .ok ())).1.deletes =
      (selectedOldIds keepId results).filterMap
        (fun oid => oid.bind (fun s => if s == "" then none else some s)) ∧
      keepId ∉ (revoke_oats org bearer keepId (.ok results) (fun _ => .ok ())).1.deletes := by
  have hdel :
      (revoke_oats org bearer keepId (.ok results) (fun _ => .ok ())).1.deletes =
        (selectedOldIds keepId results).filterMap
          (fun oid => oid.bind (fun s => if s == "" then none else some s)) := by
    unfold revoke_oats
    simp only [requestResult]
    by_cases h : (selectedOldIds keepId results).isEmpty
    · simp [h, List.isEmpty_iff.mp h]
    · simp [h, deleteLoop_ok]
  refine ⟨hdel, ?_⟩
  rw [hdel]
  intro hmem
  rcases List.mem_filterMap.mp hmem with ⟨oid, hoid, hbind⟩
  rcases List.mem_map.mp hoid with ⟨item, hitem, hid⟩
  have hne : item.id ≠ some keepId := by
    have := (List.mem_filter.mp hitem).2
    simp only [Bool.and_eq_true, bne_iff_ne] at this
    exact this.2
  apply hne
  rw [hid]
  match oid with
  | none => simp at hbind
  | some s =>
    by_cases h : s = ""
    · simp [h] at hbind
    · simp [h] at hbind
      rw [hbind]

/-- C2: when the auth response carries a nonempty `access_token` and the
token-creation response carries a nonempty `token` and a nonempty `id`,
`create_oat` succeeds, appends exactly three lines to the environment file —
`DOCKERHUB_BEARER`, `NEW_OAT_ID`, `NEW_OAT`, in that order — and the value
exported under `NEW_OAT_ID` is the `id` field of the creation response. -/
theorem create_oat_exports (username password org runId a t i : String)
    (ha : a ≠ "") (ht : t ≠ "") (hi : i ≠ "") :
    (create_oat username password org runId (.ok ⟨some a⟩) (.ok ⟨some t, some i⟩)).2 = .ok () ∧
      (create_oat username password org runId (.ok ⟨some a⟩) (.ok ⟨some t, some i⟩)).1.envLines =
        [write_github_env "DOCKERHUB_BEARER" a,
         write_github_env "NEW_OAT_ID" i,
         write_github_env "NEW_OAT" t] ∧
      (create_oat username password org runId
        (.ok ⟨some a⟩) (.ok ⟨some t, some i⟩)).1.envLines.length = 3 := by
  have h1 : optFalsy (some a) = false := by simp [optFalsy, ha]
  have h2 : optFalsy (some t) = false := by simp [optFalsy, ht]
  have h3 : optFalsy (some i) = false := by simp [optFalsy, hi]
  refine ⟨?_, ?_, ?_⟩ <;> simp [create_oat, requestResult, h1, h2, h3]

/-- Witness for C2 at concrete credentials and responses. -/
theorem create_oat_exports_witness :
    (create_oat "user" "pass" "org" "42" (.ok ⟨some "bearer1"⟩)
        (.ok ⟨some "secret1", some "id1"⟩)).2 = .ok () ∧
      (create_oat "user" "pass" "org" "42" (.ok ⟨some "bearer1"⟩)
          (.ok ⟨some "secret1", some "id1"⟩)).1.envLines =
        [write_github_env "DOCKERHUB_BEARER" "bearer1",
         write_github_env "NEW_OAT_ID" "id1",
         write_github_env "NEW_OAT" "secret1"] ∧
      (create_oat "user" "pass" "org" "42" (.ok ⟨some "bearer1"⟩)
          (.ok ⟨some "secret1", some "id1"⟩)).1.envLines.length = 3 :=
  create_oat_exports "user" "pass" "org" "42" "bearer1" "secret1" "id1"
    (by decide) (by decide) (by decide)

/-- C6, counterexample to the claim as stated: one selected token has a
null id, so zero DELETE requests are issued, yet the reported count is the
number of selected ids — `revoke_oats` prints `Revoked 1 previous
token(s).` while issuing no DELETE. -/
theorem revoke_oats_count_mismatch :
    (revoke_oats "org" "bear" "k"
        (.ok [⟨"gh-actions-rotate-2", none⟩]) (fun _ => .ok ())).1.printed =
      ["Revoked 1 previous token(s)."] ∧
      (revoke_oats "org" "bear" "k"
        (.ok [⟨"gh-actions-rotate-2", none⟩]) (fun _ => .ok ())).1.deletes = [] ∧
      (revoke_oats "org" "bear" "k"
          (.ok [⟨"gh-actions-rotate-2", none⟩]) (fun _ => .ok ())).1.printed ≠
        ["Revoked " ++
          toString (revoke_oats "org" "bear" "k"
            (.ok [⟨"gh-actions-rotate-2", none⟩]) (fun _ => .ok ())).1.deletes.length ++
          " previous token(s)."] := by
  decide

/-- C6 (amended): with every DELETE succeeding, the count `revoke_oats`
reports equals the number of selected token ids (which equals the number of
DELETE requests only when every selected id is non-null and nonempty); when
no token qualifies it prints an explicit message, issues no DELETE, and
returns without error. -/
theorem revoke_oats_reported_count (org bearer keepId : String) (results : List TokenItem) :
    (selectedOldIds keepId results ≠ [] →
      (revoke_oats org bearer keepId (.ok results) (fun _ => .ok ())).1.printed =
        ["Revoked " ++ toString (selectedOldIds keepId results).length ++
          " previous token(s)."]) ∧
      (selectedOldIds keepId results = [] →
        (revoke_oats org bearer keepId (.ok results) (fun _ => .ok ())).1.printed =
          ["No previous tokens to revoke."] ∧
        (revoke_oats org bearer keepId (.ok results) (fun _ => .ok ())).1.deletes = [] ∧
        (revoke_oats org bearer keepId (.ok results) (fun _ => .ok ())).2 = .ok ()) := by
  constructor
  · intro hne
    unfold revoke_oats
    have h : (selectedOldIds keepId results).isEmpty = false := by
      simpa [List.isEmpty_iff] using hne
    simp [requestResult, h, deleteLoop_ok]
  · intro hempty
    unfold revoke_oats
    simp [requestResult, hempty]

/-- Witness for C6 (amended): both branches at concrete inputs. -/
theorem revoke_oats_reported_count_witness :
    (revoke_oats "o" "b" "k"
        (.ok [⟨"gh-actions-rotate-1", some "t1"⟩]) (fun _ => .ok ())).1.printed =
      ["Revoked " ++
        toString (selectedOldIds "k" [⟨"gh-actions-rotate-1", some "t1"⟩]).length ++
        " previous token(s)."] ∧
      (revoke_oats "o" "b" "k" (.ok ([] : List TokenItem)) (fun _ => .ok ())).1.printed =
        ["No previous tokens to revoke."] :=
  ⟨(revoke_oats_reported_count "o" "b" "k" [⟨"gh-actions-rotate-1", some "t1"⟩]).1
      (by decide),
   ((revoke_oats_reported_count "o" "b" "k" ([] : List TokenItem)).2 (by decide)).1⟩

/-- C9: every non-2xx HTTP response, at any of the four request sites, is
translated into the single error kind carrying the status code and reason
phrase; the failing invocation aborts at that request (no retry and no
further request is attempted), and the wrapper prints the message to stderr
and exits with code 1. -/
theorem http_failure_aborts :
    (∀ (u p o r : String) (e : HTTPErr) (oatR : Except HTTPErr OatResponse),
      create_oat u p o r (.error e) oatR =
        (⟨[authUrl], [u, p], []⟩, .error (apiErrorMessage e))) ∧
    (∀ (u p o r a : String) (e : HTTPErr), a ≠ "" →
      create_oat u p o r (.ok ⟨some a⟩) (.error e) =
        (⟨[authUrl, oatUrl o], [u, p, a], [write_github_env "DOCKERHUB_BEARER" a]⟩,
         .error (apiErrorMessage e))) ∧
    (∀ (org b keepId : String) (e : HTTPErr) (deleteR : String → Except HTTPErr Unit),
      revoke_oats org b keepId (.error e) deleteR =
        (⟨[listUrl org], [], []⟩, .error (apiErrorMessage e))) ∧
    (∀ (org b keepId : String) (results : List TokenItem) (e : HTTPErr)
        (s : String) (rest : List String),
      (selectedOldIds keepId results).filterMap
          (fun oid => oid.bind (fun x => if x == "" then none else some x)) = s :: rest →
      revoke_oats org b keepId (.ok results) (fun _ => .error e) =
        (⟨[listUrl org, deleteUrl org s], [s], []⟩, .error (apiErrorMessage e))) ∧
    (∀ msg : String, runProcess (mainResult (.error msg)) = ⟨1, some msg⟩) := by
  refine ⟨?_, ?_, ?_, ?_, ?_⟩
  · intro u p o r e oatR
    rfl
  · intro u p o r a e ha
    have h1 : optFalsy (some a) = false := by simp [optFalsy, ha]
    simp [create_oat, requestResult, h1]
  · intro org b keepId e deleteR
    rfl
  · intro org b keepId results e s rest hsel
    have hne : (selectedOldIds keepId results).isEmpty = false := by
      rw [List.isEmpty_eq_false_iff_exists_mem]
      rcases (selectedOldIds keepId results).eq_nil_or_concat with h | _
      · rw [h] at hsel
        simp at hsel
      · match hsel2 : selectedOldIds keepId results with
        | [] => rw [hsel2] at hsel; simp at hsel
        | oid :: tl => exact ⟨oid, List.mem_cons_self oid tl⟩
    unfold revoke_oats
    simp only [requestResult, hne, Bool.false_eq_true, if_false]
    rw [deleteLoop_error, hsel]
    simp
  · intro msg
    rfl

/-- Witness for C9: the components at concrete inputs. -/
theorem http_failure_aborts_witness :
    create_oat "u" "p" "o" "7" (.error ⟨500, "Internal Server Error"⟩)
        (.ok ⟨some "t", some "i"⟩) =
      (⟨[authUrl], ["u", "p"], []⟩,
       .error (apiErrorMessage ⟨500, "Internal Server Error"⟩)) ∧
      revoke_oats "o" "b" "k" (.ok [⟨"gh-actions-rotate-1", some "t1"⟩])
          (fun _ => .error ⟨403, "Forbidden"⟩) =
        (⟨[listUrl "o", deleteUrl "o" "t1"], ["t1"], []⟩,
         .error (apiErrorMessage ⟨403, "Forbidden"⟩)) ∧
      runProcess (mainResult (.error "boom")) = ⟨1, some "boom"⟩ :=
  ⟨http_failure_aborts.1 "u" "p" "o" "7" ⟨500, "Internal Server Error"⟩
      (.ok ⟨some "t", some "i"⟩),
   http_failure_aborts.2.2.2.1 "o" "b" "k" [⟨"gh-actions-rotate-1", some "t1"⟩]
      ⟨403, "Forbidden"⟩ "t1" [] (by decide),
   http_failure_aborts.2.2.2.2 "boom"⟩

end Spec2Proof
